import Mathlib

/-!
Shallow embedding of the `appmetrics` package and the `datadog` push emitter
of palantir/go-baseapp, together with proofs about the embedded definitions.

Go strings are embedded as Lean `String`; byte-level operations of the Go
standard library (`strings.TrimSpace`, `strings.Split`, `sort.Strings`,
`strings.ToLower`, `strconv.Atoi`, `strconv.ParseFloat`) are modelled by
explicit functions over `List Char` below, using the fact that byte-wise
lexicographic comparison of UTF-8 strings agrees with code-point-wise
lexicographic comparison.  Metric instances are modelled by identity tokens
(`Nat`) allocated from a monotone counter, so that "the same instance is
returned" is expressible; the go-metrics registry (an external collaborator
of the package) is an association list from names to instances with the
get-or-register / register / unregister / each operations the package uses.
Go's `float64` values that only flow through parsing and configuration are
modelled as exact rationals.
-/

/- ===== Byte-level string helpers (models of Go standard library calls) ===== -/

/-- Model of the byte-wise string comparison used by Go's `sort.Strings`:
lexicographic comparison of the character lists. -/
def lexLe : List Char → List Char → Bool
  | [], _ => true
  | _ :: _, [] => false
  | a :: as, b :: bs => if a < b then true else if b < a then false else lexLe as bs

/-- The string order `s <= t` used when sorting tags. -/
def strLe (a b : String) : Prop := lexLe a.toList b.toList = true

instance : DecidableRel strLe := fun a b => by unfold strLe; infer_instance

/-- Model of Go `unicode.IsSpace` restricted to the ASCII whitespace that can
appear in metric tags. -/
def isSpaceChar (c : Char) : Bool := c == ' ' || c == '\t' || c == '\n' || c == '\r'

/-- Model of Go `strings.TrimSpace` on character lists. -/
def trimChars (cs : List Char) : List Char :=
  ((cs.dropWhile isSpaceChar).reverse.dropWhile isSpaceChar).reverse

/-- Model of Go `strings.TrimSpace`. -/
def goTrim (s : String) : String := String.mk (trimChars s.toList)

/-- Model of Go `strings.Split(s, sep)` for a one-character separator: always
returns at least one (possibly empty) piece. -/
def splitOnChar (sep : Char) : List Char → List (List Char)
  | [] => [[]]
  | c :: cs =>
    if c = sep then [] :: splitOnChar sep cs
    else
      match splitOnChar sep cs with
      | r :: rs => (c :: r) :: rs
      | [] => [[c]]

/-- Model of Go `strings.Split(s, ",")`. -/
def goSplitComma (s : String) : List String :=
  (splitOnChar ',' s.toList).map String.mk

/-- Model of Go `strings.IndexRune(s, c)`: index of the first occurrence,
`none` standing for Go's `-1`. -/
def indexOfChar (cs : List Char) (c : Char) : Option Nat :=
  match cs with
  | [] => none
  | a :: as => if a = c then some 0 else (indexOfChar as c).map (· + 1)

/-- Model of Go `strings.ToLower` for the ASCII letters that appear in
sample-specification strings. -/
def lowerChar (c : Char) : Char :=
  if 'A' ≤ c ∧ c ≤ 'Z' then Char.ofNat (c.toNat + 32) else c

/-- Model of Go `strings.ToLower`. -/
def goToLower (s : String) : String := String.mk (s.toList.map lowerChar)

/- ===== The go-metrics registry, as consumed by the package ===== -/

/-- The go-metrics registry: a mapping from metric names to metric instances.
Instances are identified by `Nat` tokens. -/
abbrev Registry (α : Type) := List (String × α)

/-- Lookup in an association list by name (model of a Go map read; also used
for `reflect` method and field lookup by name). -/
def lookupStr {α : Type} : List (String × α) → String → Option α
  | [], _ => none
  | (k, v) :: r, n => if k = n then some v else lookupStr r n

/-- Model of go-metrics `Registry.Register`: stores the given instance under
the name unless the name already exists, in which case it returns a
`DuplicateMetric` error (discarded by the caller) and changes nothing. -/
def goRegister {α : Type} (r : Registry α) (name : String) (v : α) : Registry α :=
  match lookupStr r name with
  | some _ => r
  | none => r ++ [(name, v)]

/-- Model of go-metrics `Registry.Unregister`: removes the entry with the
given name. -/
def goUnregister {α : Type} (r : Registry α) (name : String) : Registry α :=
  r.filter (fun p => decide (p.1 ≠ name))

/-- A world: the shared registry of instance tokens plus the allocator for
fresh instance tokens (a call of a `newMetric` factory allocates the next
token). -/
structure World where
  registry : Registry Nat
  nextId : Nat
deriving DecidableEq

/-- Model of go-metrics `Registry.GetOrRegister(name, factory)`: returns the
existing instance for the name, or allocates a fresh instance with the
factory and stores it. -/
def getOrRegister (w : World) (name : String) : Nat × World :=
  match lookupStr w.registry name with
  | some i => (i, w)
  | none => (w.nextId, ⟨w.registry ++ [(name, w.nextId)], w.nextId + 1⟩)

/- ===== appmetrics/tags.go ===== -/

/-- From `cleanAndSortTags` in tags.go: the cleaning loop that trims
whitespace from each tag and drops the tags that are empty afterwards. -/
def cleanTags : List String → List String
  | [] => []
  | t :: ts =>
    let u := goTrim t
    if u = "" then cleanTags ts else u :: cleanTags ts

/-- `cleanAndSortTags` from tags.go: trim each tag, drop empty tags, and sort
the remainder with `sort.Strings`. -/
def cleanAndSortTags (tags : List String) : List String :=
  List.insertionSort strLe (cleanTags tags)

/-- The name-building loop in `taggedMetric.Tag`: tags joined by commas. -/
def joinTags : List String → String
  | [] => ""
  | t :: ts => ts.foldl (fun acc u => acc ++ "," ++ u) t

/-- The full registry key synthesized by `taggedMetric.Tag`: the base name,
plus a bracketed comma-joined suffix when any tags survive cleaning. -/
def taggedName (base : String) (tags : List String) : String :=
  match cleanAndSortTags tags with
  | [] => base
  | t :: ts => base ++ "[" ++ joinTags (t :: ts) ++ "]"

/-- The `taggedMetric` wrapper from tags.go: the stored registry handle
(`bound = false` models a nil `r`) and the base metric name.  Its
`newMetric` factory is modelled by fresh-token allocation in the `World`. -/
structure TaggedMetric where
  bound : Bool
  name : String
deriving DecidableEq

/-- `taggedMetric.Tag` from tags.go: with no bound registry, return a fresh
throwaway instance from the factory; otherwise synthesize the tagged name
and get-or-register an instance under it. -/
def TaggedMetric.Tag (m : TaggedMetric) (tags : List String) (w : World) : Nat × World :=
  if m.bound = false then
    (w.nextId, ⟨w.registry, w.nextId + 1⟩)
  else
    getOrRegister w (taggedName m.name tags)

/-- `taggedMetric.register` from tags.go: remember the registry and
immediately get-or-register the bare metric name. -/
def TaggedMetric.register (m : TaggedMetric) (w : World) : TaggedMetric × World :=
  (⟨true, m.name⟩, (getOrRegister w m.name).2)

/- ===== datadog emitter: tagsFromName ===== -/

/-- `tagsFromName` from the datadog emitter: split a registry name into the
base name and the bracketed tag list; names without a `[` or not ending in
`]` pass through whole with no tags. -/
def tagsFromName (name : String) : String × List String :=
  match indexOfChar name.toList '[' with
  | none => (name, [])
  | some start =>
    if name.toList.getLast? = some ']' then
      (String.mk (name.toList.take start),
       (splitOnChar ',' ((name.toList.drop (start + 1)).dropLast)).map String.mk)
    else
      (name, [])

/- ===== appmetrics.go / the reflection engine ===== -/

/-- The numeric Go types that matter to functional-gauge validation. -/
inductive NumType
  | int64
  | float64
  | otherType
deriving DecidableEq

/-- The part of a Go function type inspected by `getGaugeFunction` via
`reflect`: the parameter count (`NumIn`) and the result types (`NumOut`,
`Out(0)`). -/
structure FuncSig where
  numIn : Nat
  outs : List NumType
deriving DecidableEq

/-- What `reflect.Value.FieldByName` can find for a compute-accessor name:
a field of function type with its signature, or a field of some other
kind. -/
inductive FieldFuncInfo
  | funcVal (sig : FuncSig)
  | nonFunc
deriving DecidableEq

/-- The supported base metric interface types of appmetrics (plus a
`nonMetricType` stand-in for every other Go type). -/
inductive BaseKind
  | counter
  | gauge
  | gaugeFloat64
  | functionalGauge
  | functionalGaugeFloat64
  | histogram
  | meter
  | timer
  | nonMetricType
deriving DecidableEq

/-- A metric field's declared Go type: its base kind, possibly wrapped in the
dynamic-tag `Tagged` interface (`isTagged` in tags.go recovers this pair
from the reflected type). -/
structure FieldType where
  tagged : Bool
  base : BaseKind
deriving DecidableEq

/-- One struct field of a metrics struct: Go field name, the `metric` and
`metric-sample` struct tags (empty string = tag absent), and the field's
type. -/
structure AggField where
  name : String
  metricTag : String
  sampleTag : String
  ftype : FieldType
deriving DecidableEq

/-- A metrics struct type as seen by the reflection engine: its fields, its
methods (for `MethodByName`), and its non-metric fields that may hold
compute functions (for `FieldByName`). -/
structure AggDecl where
  fields : List AggField
  methods : List (String × FuncSig)
  plainFields : List (String × FieldFuncInfo)
deriving DecidableEq

/-- The value a functional-gauge field receives: either the bound method
found by `MethodByName`, or the wrapper closure over the field location
produced in the `isField` case of `getGaugeFunction`. -/
inductive GaugeFn
  | boundMethod (accessor : String)
  | fieldWrapper (accessor : String)
deriving DecidableEq

/-- Calling `Value()` on a functional gauge: a bound method evaluates the
method, while the field wrapper reads and calls whatever function the
accessor field holds at the time of the call (`fieldEnv` is the struct's
mutable function-field state at that moment). -/
def evalGauge (g : GaugeFn) (methodEnv fieldEnv : String → Int) : Int :=
  match g with
  | .boundMethod n => methodEnv n
  | .fieldWrapper n => fieldEnv n

/-- `isMetric` from appmetrics.go: after unwrapping a `Tagged` interface, the
six plain metric interfaces are accepted, functional gauges are accepted
only when not tagged, and everything else is rejected. -/
def isMetric (t : FieldType) : Bool :=
  match t.base with
  | .counter => true
  | .gauge => true
  | .gaugeFloat64 => true
  | .histogram => true
  | .meter => true
  | .timer => true
  | .functionalGauge => !t.tagged
  | .functionalGaugeFloat64 => !t.tagged
  | .nonMetricType => false

/-- `getMetricFields` from appmetrics.go: the fields carrying a non-empty
`metric` tag, in declaration order; a tagged field of a non-metric type is
an error. -/
def getMetricFields : List AggField → Except String (List AggField)
  | [] => .ok []
  | f :: fs =>
    if f.metricTag = "" then getMetricFields fs
    else if isMetric f.ftype then
      match getMetricFields fs with
      | .ok rest => .ok (f :: rest)
      | .error e => .error e
    else .error ("field " ++ f.name ++ ": metric tag appears on non-metric type")

/-- `getGaugeFunction` from funcs.go: resolve `Compute` + field name as a
method, else as a function-typed field; validate that it takes no
parameters and returns exactly one value of the wanted numeric type.  In
the field case the result is a wrapper that calls the field's current value
at call time (the field itself still holds nil while `New` runs, and no
value is inspected here, only the type). -/
def getGaugeFunction (want : NumType) (d : AggDecl) (fieldName : String) : Except String GaugeFn :=
  let name := "Compute" ++ fieldName
  let found : Except String (FuncSig × Bool) :=
    match lookupStr d.methods name with
    | some sig => .ok (sig, false)
    | none =>
      match lookupStr d.plainFields name with
      | none => .error (name ++ ": method or field does not exist")
      | some FieldFuncInfo.nonFunc => .error (name ++ ": field must be a function")
      | some (FieldFuncInfo.funcVal sig) => .ok (sig, true)
  match found with
  | .error e => .error e
  | .ok (sig, isField) =>
    if sig.numIn ≠ 0 then .error (name ++ ": function must take no parameters")
    else if sig.outs.length ≠ 1 then .error (name ++ ": function must return a single value")
    else if sig.outs.head? ≠ some want then
      .error (name ++ ": function must return a value of the wanted type")
    else if isField then .ok (GaugeFn.fieldWrapper name)
    else .ok (GaugeFn.boundMethod name)

/- ===== Sample parsing (appmetrics.go) ===== -/

/-- A histogram sample configuration, as built by `parseSample`.  The alpha
of an exponentially-decaying sample is a `float64` in Go; it is modelled
exactly as a rational. -/
inductive Sample
  | uniform (reservoir : Int)
  | expDecay (reservoir : Int) (alpha : Rat)
deriving DecidableEq

/-- `DefaultReservoirSize` from appmetrics.go. -/
def DefaultReservoirSize : Int := 1028

/-- `DefaultExpDecayAlpha` from appmetrics.go (the float literal 0.015,
modelled exactly). -/
def DefaultExpDecayAlpha : Rat := 0.015

/-- Digit-string value, for the integer parts of Go number syntax. -/
def natOfDigits (ds : List Char) : Nat :=
  ds.foldl (fun a c => a * 10 + (c.toNat - 48)) 0

/-- Model of Go `strconv.Atoi`: an optional sign followed by at least one
decimal digit (the out-of-range failure of the 64-bit `int` is not
modelled). -/
def goAtoi (s : String) : Option Int :=
  match s.toList with
  | [] => none
  | '+' :: ds => if ds ≠ [] ∧ ds.all Char.isDigit then some (natOfDigits ds) else none
  | '-' :: ds => if ds ≠ [] ∧ ds.all Char.isDigit then some (-(natOfDigits ds : Int)) else none
  | ds => if ds.all Char.isDigit then some (natOfDigits ds) else none

/-- The exponent suffix of Go float syntax: an optional sign and at least
one digit, consuming the whole remainder. -/
def floatExpPart (mant : Rat) (r : List Char) : Option Rat :=
  let sgnAndRest : Bool × List Char :=
    match r with
    | '+' :: t => (true, t)
    | '-' :: t => (false, t)
    | t => (true, t)
  let ed := sgnAndRest.2.takeWhile Char.isDigit
  let rest := sgnAndRest.2.dropWhile Char.isDigit
  if ed = [] ∨ rest ≠ [] then none
  else if sgnAndRest.1 then some (mant * (10 : Rat) ^ natOfDigits ed)
  else some (mant / (10 : Rat) ^ natOfDigits ed)

/-- Model of Go `strconv.ParseFloat` restricted to the decimal syntax
`[+-] digits [. digits] [e [+-] digits]` with at least one mantissa digit
(hexadecimal floats, underscores and the special values inf/infinity/nan
accepted by the full library function are not modelled; the value is exact
rather than rounded to binary). -/
def goParseFloat (s : String) : Option Rat :=
  let cs := s.toList
  let sgnAndRest : Bool × List Char :=
    match cs with
    | '+' :: t => (true, t)
    | '-' :: t => (false, t)
    | t => (true, t)
  let ip := sgnAndRest.2.takeWhile Char.isDigit
  let r1 := sgnAndRest.2.dropWhile Char.isDigit
  let fpAndRest : Option (List Char) × List Char :=
    match r1 with
    | '.' :: t => (some (t.takeWhile Char.isDigit), t.dropWhile Char.isDigit)
    | t => (none, t)
  let fp := fpAndRest.1.getD []
  if ip = [] ∧ fp = [] then none
  else
    let mag : Rat :=
      (natOfDigits ip : Rat) + (natOfDigits fp : Rat) / (10 : Rat) ^ fp.length
    let mant : Rat := if sgnAndRest.1 then mag else -mag
    match fpAndRest.2 with
    | [] => some mant
    | 'e' :: r => floatExpPart mant r
    | 'E' :: r => floatExpPart mant r
    | _ => none

/-- `parseUniformSample` from appmetrics.go: `["uniform"]` gives the default
reservoir size, `["uniform", n]` parses the reservoir size, anything longer
is invalid. -/
def parseUniformSample (parts : List String) : Except String Sample :=
  match parts with
  | [_] => .ok (Sample.uniform DefaultReservoirSize)
  | [_, rs] =>
    match goAtoi rs with
    | some n => .ok (Sample.uniform n)
    | none => .error "invalid uniform sample: reservoir"
  | _ => .error "invalid uniform sample"

/-- `parseExpDecaySample` from appmetrics.go: `["expdecay"]` gives the
defaults, `["expdecay", n, a]` parses reservoir size and alpha, any other
length (including a reservoir size without an alpha) is invalid. -/
def parseExpDecaySample (parts : List String) : Except String Sample :=
  match parts with
  | [_] => .ok (Sample.expDecay DefaultReservoirSize DefaultExpDecayAlpha)
  | [_, rs, al] =>
    match goAtoi rs with
    | none => .error "invalid expdecay sample: reservoir"
    | some n =>
      match goParseFloat al with
      | none => .error "invalid expdecay sample: alpha"
      | some a => .ok (Sample.expDecay n a)
  | _ => .error "invalid expdecay sample"

/-- The dispatch of `parseSample` from appmetrics.go on the comma-separated
parts of the lower-cased specification. -/
def parseSampleParts (parts : List String) : Except String Sample :=
  match parts with
  | [] => .error "invalid sample type"
  | t :: _ =>
    if t = "uniform" then parseUniformSample parts
    else if t = "expdecay" then parseExpDecaySample parts
    else .error "invalid sample type"

/-- `parseSample` from appmetrics.go: lower-case the specification, split it
on commas, and dispatch on the first part. -/
def parseSample (s : String) : Except String Sample :=
  parseSampleParts (goSplitComma (goToLower s))

/-- The sample used by the histogram and timer branches of `createField`:
the parsed `metric-sample` tag when the tag is present, otherwise an
exponentially-decaying sample with `DefaultReservoirSize` and
`DefaultExpDecayAlpha` (for a timer this default is what the go-metrics
`NewTimer` constructor itself installs). -/
def sampleForTag (t : String) : Except String Sample :=
  if t = "" then .ok (Sample.expDecay DefaultReservoirSize DefaultExpDecayAlpha)
  else parseSample t

/- ===== createField / New / Register / Unregister ===== -/

/-- The value stored into a metric field by `createField`: a concrete metric
instance (identified by its token, with its sample configuration when it is
a histogram or timer), a `taggedMetric` wrapper, or a functional gauge. -/
inductive FieldVal
  | plain (id : Nat) (sample : Option Sample)
  | taggedW (tm : TaggedMetric) (sample : Option Sample)
  | functional (id : Nat) (fn : GaugeFn)
deriving DecidableEq

/-- The common tail of the non-functional `createField` branches: a tagged
field receives an unbound `taggedMetric` wrapper holding the metric name
and the factory, an untagged field receives a fresh instance from the
factory. -/
def mkMetricVal (tagged : Bool) (metricName : String) (s : Option Sample) (nid : Nat) :
    FieldVal × Nat :=
  if tagged then (FieldVal.taggedW ⟨false, metricName⟩ s, nid)
  else (FieldVal.plain nid s, nid + 1)

/-- `createField` from appmetrics.go: build the value for one metric field,
threading the fresh-instance allocator.  Functional gauges resolve and
validate their compute function; histograms and timers resolve their
sample specification. -/
def createField (d : AggDecl) (f : AggField) (nid : Nat) : Except String (FieldVal × Nat) :=
  match f.ftype.base with
  | .counter => .ok (mkMetricVal f.ftype.tagged f.metricTag none nid)
  | .gauge => .ok (mkMetricVal f.ftype.tagged f.metricTag none nid)
  | .gaugeFloat64 => .ok (mkMetricVal f.ftype.tagged f.metricTag none nid)
  | .meter => .ok (mkMetricVal f.ftype.tagged f.metricTag none nid)
  | .functionalGauge =>
    match getGaugeFunction NumType.int64 d f.name with
    | .error e => .error e
    | .ok fn => .ok (FieldVal.functional nid fn, nid + 1)
  | .functionalGaugeFloat64 =>
    match getGaugeFunction NumType.float64 d f.name with
    | .error e => .error e
    | .ok fn => .ok (FieldVal.functional nid fn, nid + 1)
  | .histogram =>
    match sampleForTag f.sampleTag with
    | .error e => .error e
    | .ok s => .ok (mkMetricVal f.ftype.tagged f.metricTag (some s) nid)
  | .timer =>
    match sampleForTag f.sampleTag with
    | .error e => .error e
    | .ok s => .ok (mkMetricVal f.ftype.tagged f.metricTag (some s) nid)
  | .nonMetricType => .error ("field " ++ f.name ++ ": not a metric type")

/-- The field-population loop of `New`: create every discovered metric field
in order, stopping at the first error (`New` panics there, so no struct is
returned). -/
def createFields (d : AggDecl) : List AggField → Nat → Except String (List (String × FieldVal) × Nat)
  | [], nid => .ok ([], nid)
  | f :: fs, nid =>
    match createField d f nid with
    | .error e => .error e
    | .ok (v, nid') =>
      match createFields d fs nid' with
      | .error e => .error e
      | .ok (rest, nid'') => .ok ((f.metricTag, v) :: rest, nid'')

/-- `New` from appmetrics.go: discover the metric fields of the struct type
and populate them.  A `.error` models the panic; no partially populated
struct value exists in that case. -/
def New (d : AggDecl) : Except String (List (String × FieldVal)) :=
  match getMetricFields d.fields with
  | .error e => .error e
  | .ok fs =>
    match createFields d fs 0 with
    | .error e => .error e
    | .ok (inst, _) => .ok inst

/-- The per-field body of `Register` from appmetrics.go: a value implementing
the private `register` interface (the `taggedMetric` wrapper) is registered
through its own `register` method, every other metric value goes through
`Registry.Register`, whose duplicate-name error is discarded. -/
def registerField (w : World) : String × FieldVal → World × (String × FieldVal)
  | (k, FieldVal.plain i s) => (⟨goRegister w.registry k i, w.nextId⟩, (k, FieldVal.plain i s))
  | (k, FieldVal.taggedW tm s) =>
    let p := TaggedMetric.register tm w
    (p.2, (k, FieldVal.taggedW p.1 s))
  | (k, FieldVal.functional i fn) =>
    (⟨goRegister w.registry k i, w.nextId⟩, (k, FieldVal.functional i fn))

/-- `Register` from appmetrics.go, acting on a populated struct instance:
register every metric field in declaration order (the wrapper fields are
mutated to remember the registry). -/
def registerFields (w : World) : List (String × FieldVal) → World × List (String × FieldVal)
  | [] => (w, [])
  | fv :: rest =>
    let p := registerField w fv
    let q := registerFields p.1 rest
    (q.1, p.2 :: q.2)

/-- `Unregister` from appmetrics.go: rediscover the metric fields of the
struct type and unregister every declared name unconditionally. -/
def UnregisterAgg (d : AggDecl) (r : Registry Nat) : Except String (Registry Nat) :=
  match getMetricFields d.fields with
  | .error e => .error e
  | .ok fs => .ok (fs.foldl (fun acc f => goUnregister acc f.metricTag) r)

/-- Whether an `Except` carries a value (Go: the error result is nil). -/
def exceptOk {ε α : Type} : Except ε α → Bool
  | .ok _ => true
  | .error _ => false

/-- A populated instance is well formed when every `taggedMetric` wrapper
stored under a metric name carries that same name as its base name —
exactly how `createField` builds wrappers. -/
def instWFb (inst : List (String × FieldVal)) : Bool :=
  inst.all fun p =>
    match p.2 with
    | FieldVal.taggedW tm _ => decide (tm.name = p.1)
    | _ => true

/-- The first field of an instance registered under a given metric name. -/
def instFind (inst : List (String × FieldVal)) (n : String) : Option FieldVal :=
  lookupStr inst n

/-- The number of registry entries carrying a given name. -/
def countKey {α : Type} (r : Registry α) (k : String) : Nat :=
  (r.filter fun p => decide (p.1 = k)).length

/- ===== Spec-side definitions (for refinement claims) ===== -/

/-- Modelled from the spec: the parameter forms allowed after the `uniform`
token — nothing, or a reservoir size, where `<int>` and `<float>` are read
by the strconv models above. -/
def specUniformParams : List String → Bool
  | [] => true
  | [rs] => (goAtoi rs).isSome
  | _ => false

/-- Modelled from the spec: the parameter forms allowed after the
`expdecay` token — nothing, or a reservoir size and an alpha together. -/
def specExpDecayParams : List String → Bool
  | [] => true
  | [rs, al] => (goAtoi rs).isSome && (goParseFloat al).isSome
  | _ => false

/-- Modelled from the spec: the comma-separated forms of the sample
mini-language, with the first token selecting the algorithm — `"uniform"`,
`"uniform,<int>"`, `"expdecay"`, `"expdecay,<int>,<float>"`. -/
def specGrammarParts : List String → Bool
  | [] => false
  | t :: rest =>
    if t = "uniform" then specUniformParams rest
    else if t = "expdecay" then specExpDecayParams rest
    else false

/-- Modelled from the spec: a whole sample specification matches the grammar
when, case-insensitively, its comma-separated parts take one of the four
forms. -/
def specSampleGrammarB (s : String) : Bool :=
  specGrammarParts (goSplitComma (goToLower s))

/-- A compute-accessor signature violating the checks of
`getGaugeFunction`: it takes parameters, or does not return exactly one
value, or returns a value of the wrong numeric type. -/
def badSig (sig : FuncSig) (want : NumType) : Bool :=
  decide (sig.numIn ≠ 0) || decide (sig.outs.length ≠ 1) || decide (sig.outs.head? ≠ some want)

/-- The failure conditions of the claim on functional-gauge validation: no
method and no field has the accessor name, or the accessor is a non-function
field, or the accessor found (method first, field second, exactly the
resolution order of `getGaugeFunction`) has a bad signature. -/
def gaugeAccessorBad (d : AggDecl) (accessor : String) (want : NumType) : Bool :=
  match lookupStr d.methods accessor with
  | some sig => badSig sig want
  | none =>
    match lookupStr d.plainFields accessor with
    | none => true
    | some FieldFuncInfo.nonFunc => true
    | some (FieldFuncInfo.funcVal sig) => badSig sig want

/- ===== datadog emitter: EmitOnce ===== -/

/-- The snapshot accessors of a go-metrics histogram (or timer) that
`EmitOnce` reads: these values come from the external go-metrics snapshot
and are treated as given data. -/
structure HistStats where
  mean : Rat
  cnt : Int
  maxV : Int
  median : Rat
  minV : Int
  sumV : Int
  p95 : Rat
deriving DecidableEq

/-- The snapshot accessors of a go-metrics meter that `EmitOnce` reads. -/
structure MeterStats where
  rateMean : Rat
  cnt : Int
  rate1 : Rat
  rate5 : Rat
  rate15 : Rat
deriving DecidableEq

/-- A registry entry as the emitter's type switch sees it. -/
inductive EmMetric
  | counter (count : Int)
  | gauge (value : Int)
  | gaugeFloat64 (value : Rat)
  | histogram (s : HistStats)
  | meter (s : MeterStats)
  | timer (s : HistStats)
deriving DecidableEq

/-- A DogStatsd client call made by `EmitOnce`: `client.Count` or
`client.Gauge`, with the metric name, the value and the tags (the constant
sample rate 1 is omitted). -/
inductive Msg
  | count (name : String) (value : Int) (tags : List String)
  | gauge (name : String) (value : Rat) (tags : List String)
deriving DecidableEq

/-- Model of go-metrics `Counter.Inc`. -/
def counterInc (c d : Int) : Int := c + d

/-- Model of go-metrics `Counter.Count`: the current cumulative total. -/
def counterCount (c : Int) : Int := c

/-- The seven derived gauge messages `EmitOnce` sends for a histogram or
timer snapshot. -/
def histogramMsgs (n : String) (tags : List String) (s : HistStats) : List Msg :=
  [Msg.gauge (n ++ ".avg") s.mean tags,
   Msg.gauge (n ++ ".count") (s.cnt : Rat) tags,
   Msg.gauge (n ++ ".max") (s.maxV : Rat) tags,
   Msg.gauge (n ++ ".median") s.median tags,
   Msg.gauge (n ++ ".min") (s.minV : Rat) tags,
   Msg.gauge (n ++ ".sum") (s.sumV : Rat) tags,
   Msg.gauge (n ++ ".95percentile") s.p95 tags]

/-- The body of the `registry.Each` callback in `EmitOnce`: split the raw
registry name into base name and tags, then dispatch on the metric kind. -/
def emitEntry (rawName : String) (m : EmMetric) : List Msg :=
  let p := tagsFromName rawName
  match m with
  | .counter c => [Msg.count p.1 (counterCount c) p.2]
  | .gauge v => [Msg.gauge p.1 (v : Rat) p.2]
  | .gaugeFloat64 v => [Msg.gauge p.1 v p.2]
  | .histogram s => histogramMsgs p.1 p.2 s
  | .meter s =>
    [Msg.gauge (p.1 ++ ".avg") s.rateMean p.2,
     Msg.gauge (p.1 ++ ".count") (s.cnt : Rat) p.2,
     Msg.gauge (p.1 ++ ".rate1") s.rate1 p.2,
     Msg.gauge (p.1 ++ ".rate5") s.rate5 p.2,
     Msg.gauge (p.1 ++ ".rate15") s.rate15 p.2]
  | .timer s => histogramMsgs p.1 p.2 s

/-- `EmitOnce` from the datadog emitter: walk every registry entry and send
its messages. -/
def EmitOnce (r : Registry EmMetric) : List Msg :=
  r.flatMap fun p => emitEntry p.1 p.2

/- ===== Order lemmas for the tag sort ===== -/

theorem lexLe_total : ∀ as bs : List Char, lexLe as bs = true ∨ lexLe bs as = true := by
  intro as
  induction as with
  | nil => intro bs; left; rfl
  | cons a as ih =>
    intro bs
    cases bs with
    | nil => right; rfl
    | cons b bs =>
      by_cases hab : a < b
      · left; simp [lexLe, hab]
      · by_cases hba : b < a
        · right; simp [lexLe, hba, hab]
        · rcases ih bs with h | h
          · left; simp [lexLe, hab, hba, h]
          · right; simp [lexLe, hab, hba, h]

theorem lexLe_trans : ∀ as bs cs : List Char,
    lexLe as bs = true → lexLe bs cs = true → lexLe as cs = true := by
  intro as
  induction as with
  | nil => intro bs cs _ _; rfl
  | cons a as ih =>
    intro bs cs h1 h2
    cases bs with
    | nil => simp [lexLe] at h1
    | cons b bs =>
      cases cs with
      | nil => simp [lexLe] at h2
      | cons c cs =>
        by_cases hab : a < b
        · by_cases hbc : b < c
          · have hac : a < c := lt_trans hab hbc
            simp [lexLe, hac]
          · by_cases hcb : c < b
            · simp [lexLe, hbc, hcb] at h2
            · have hbc' : b = c := le_antisymm (not_lt.mp hcb) (not_lt.mp hbc)
              subst hbc'
              simp [lexLe, hab]
        · by_cases hba : b < a
          · simp [lexLe, hab, hba] at h1
          · have hab' : a = b := le_antisymm (not_lt.mp hba) (not_lt.mp hab)
            subst hab'
            simp only [lexLe, if_neg (lt_irrefl a)] at h1 h2 ⊢
            by_cases hac : a < c
            · simp [hac]
            · by_cases hca : c < a
              · simp [hac, hca] at h2
              · simp [hac, hca] at h1 h2 ⊢
                exact ih bs cs h1 h2

theorem lexLe_antisymm : ∀ as bs : List Char,
    lexLe as bs = true → lexLe bs as = true → as = bs := by
  intro as
  induction as with
  | nil =>
    intro bs _ h2
    cases bs with
    | nil => rfl
    | cons b bs => simp [lexLe] at h2
  | cons a as ih =>
    intro bs h1 h2
    cases bs with
    | nil => simp [lexLe] at h1
    | cons b bs =>
      by_cases hab : a < b
      · simp [lexLe, hab, lt_asymm hab] at h2
      · by_cases hba : b < a
        · simp [lexLe, hab, hba] at h1
        · have hab' : a = b := le_antisymm (not_lt.mp hba) (not_lt.mp hab)
          subst hab'
          simp [lexLe, lt_irrefl] at h1 h2
          rw [ih bs h1 h2]

instance : IsTotal String strLe := ⟨fun a b => lexLe_total a.toList b.toList⟩

instance : IsTrans String strLe := ⟨fun a b c => lexLe_trans a.toList b.toList c.toList⟩

instance : IsAntisymm String strLe :=
  ⟨fun a b h1 h2 => String.ext (lexLe_antisymm a.toList b.toList h1 h2)⟩

/-- Two tag lists with the same cleaned multiset produce the same cleaned,
sorted tag list. -/
theorem cleanAndSortTags_perm {ts1 ts2 : List String}
    (h : (cleanTags ts1).Perm (cleanTags ts2)) :
    cleanAndSortTags ts1 = cleanAndSortTags ts2 :=
  List.eq_of_perm_of_sorted
    (((List.perm_insertionSort strLe (cleanTags ts1)).trans h).trans
      (List.perm_insertionSort strLe (cleanTags ts2)).symm)
    (List.sorted_insertionSort strLe (cleanTags ts1))
    (List.sorted_insertionSort strLe (cleanTags ts2))

/- ===== Registry lemmas ===== -/

theorem lookupStr_append_some {α : Type} (r l : List (String × α)) (k : String) (v : α)
    (h : lookupStr r k = some v) : lookupStr (r ++ l) k = some v := by
  induction r with
  | nil => simp [lookupStr] at h
  | cons p r ih =>
    obtain ⟨a, b⟩ := p
    by_cases hk : a = k
    · simp [lookupStr, hk] at h ⊢; exact h
    · simp [lookupStr, hk] at h ⊢; exact ih h

theorem lookupStr_append_none {α : Type} (r l : List (String × α)) (k : String)
    (h : lookupStr r k = none) : lookupStr (r ++ l) k = lookupStr l k := by
  induction r with
  | nil => simp
  | cons p r ih =>
    obtain ⟨a, b⟩ := p
    by_cases hk : a = k
    · simp [lookupStr, hk] at h
    · simp [lookupStr, hk] at h ⊢; exact ih h

/-- A get-or-register leaves a key it just resolved resolving to the same
instance: the second call finds the first call's entry. -/
theorem getOrRegister_stable (w : World) (k : String) :
    getOrRegister (getOrRegister w k).2 k = getOrRegister w k := by
  unfold getOrRegister
  cases h : lookupStr w.registry k with
  | some i => simp [h]
  | none =>
    have h2 : lookupStr (w.registry ++ [(k, w.nextId)]) k = some w.nextId := by
      rw [lookupStr_append_none w.registry _ k h]
      simp [lookupStr]
    simp [h, h2]

/-- A fresh get-or-register leaves the key present. -/
theorem getOrRegister_present (w : World) (k : String) :
    ∃ v, lookupStr ((getOrRegister w k).2).registry k = some v := by
  unfold getOrRegister
  cases h : lookupStr w.registry k with
  | some i => exact ⟨i, h⟩
  | none =>
    refine ⟨w.nextId, ?_⟩
    simp only []
    rw [lookupStr_append_none _ _ _ h]
    simp [lookupStr]

/-- `registerField` only appends registry entries. -/
theorem registerField_registry_ext (w : World) (fv : String × FieldVal) :
    ∃ l, ((registerField w fv).1).registry = w.registry ++ l := by
  obtain ⟨k, v⟩ := fv
  cases v with
  | plain i s =>
    simp only [registerField]
    unfold goRegister
    cases h : lookupStr w.registry k with
    | some _ => exact ⟨[], by simp⟩
    | none => exact ⟨[(k, i)], rfl⟩
  | taggedW tm s =>
    simp only [registerField, TaggedMetric.register]
    unfold getOrRegister
    cases h : lookupStr w.registry tm.name with
    | some _ => exact ⟨[], by simp⟩
    | none => exact ⟨[(tm.name, w.nextId)], rfl⟩
  | functional i fn =>
    simp only [registerField]
    unfold goRegister
    cases h : lookupStr w.registry k with
    | some _ => exact ⟨[], by simp⟩
    | none => exact ⟨[(k, i)], rfl⟩

/-- `registerFields` only appends registry entries. -/
theorem registerFields_registry_ext (inst : List (String × FieldVal)) :
    ∀ w : World, ∃ l, ((registerFields w inst).1).registry = w.registry ++ l := by
  induction inst with
  | nil => intro w; exact ⟨[], by simp [registerFields]⟩
  | cons fv rest ih =>
    intro w
    obtain ⟨l1, h1⟩ := registerField_registry_ext w fv
    obtain ⟨l2, h2⟩ := ih (registerField w fv).1
    refine ⟨l1 ++ l2, ?_⟩
    simp only [registerFields]
    rw [h2, h1, List.append_assoc]

/-- An existing registry binding survives any sequence of registrations. -/
theorem lookupStr_registerFields_some (inst : List (String × FieldVal)) (w : World)
    (k : String) (v : Nat) (h : lookupStr w.registry k = some v) :
    lookupStr ((registerFields w inst).1).registry k = some v := by
  obtain ⟨l, hl⟩ := registerFields_registry_ext inst w
  rw [hl]
  exact lookupStr_append_some _ _ _ _ h

theorem countKey_append {α : Type} (r l : Registry α) (k : String) :
    countKey (r ++ l) k = countKey r k + countKey l k := by
  simp [countKey, List.filter_append]

theorem lookupStr_none_countKey {α : Type} (r : Registry α) (k : String)
    (h : lookupStr r k = none) : countKey r k = 0 := by
  induction r with
  | nil => rfl
  | cons p r ih =>
    obtain ⟨a, b⟩ := p
    by_cases hk : a = k
    · simp [lookupStr, hk] at h
    · simp [lookupStr, hk] at h
      simp [countKey, List.filter, hk] at ih ⊢
      exact ih h

theorem lookupStr_some_countKey {α : Type} (r : Registry α) (k : String) (v : α)
    (h : lookupStr r k = some v) : 1 ≤ countKey r k := by
  induction r with
  | nil => simp [lookupStr] at h
  | cons p r ih =>
    obtain ⟨a, b⟩ := p
    by_cases hk : a = k
    · simp [countKey, List.filter, hk]
    · simp [lookupStr, hk] at h
      simp [countKey, List.filter, hk] at ih ⊢
      exact ih h

/-- `Registry.Register` never produces a second entry for a name. -/
theorem countKey_goRegister_le {α : Type} (r : Registry α) (kk : String) (v : α) (n : String)
    (h : countKey r n ≤ 1) : countKey (goRegister r kk v) n ≤ 1 := by
  unfold goRegister
  cases h2 : lookupStr r kk with
  | some _ => exact h
  | none =>
    rw [countKey_append]
    by_cases hk : kk = n
    · subst hk
      rw [lookupStr_none_countKey r kk h2]
      simp [countKey, List.filter]
    · have : countKey [(kk, v)] n = 0 := by simp [countKey, List.filter, hk]
      omega

/-- `GetOrRegister` never produces a second entry for a name. -/
theorem countKey_getOrRegister_le (w : World) (kk n : String)
    (h : countKey w.registry n ≤ 1) : countKey ((getOrRegister w kk).2).registry n ≤ 1 := by
  unfold getOrRegister
  cases h2 : lookupStr w.registry kk with
  | some _ => exact h
  | none =>
    simp only []
    rw [countKey_append]
    by_cases hk : kk = n
    · subst hk
      rw [lookupStr_none_countKey w.registry kk h2]
      simp [countKey, List.filter]
    · have : countKey [(kk, w.nextId)] n = 0 := by simp [countKey, List.filter, hk]
      omega

theorem countKey_registerField_le (w : World) (fv : String × FieldVal) (n : String)
    (h : countKey w.registry n ≤ 1) : countKey ((registerField w fv).1).registry n ≤ 1 := by
  obtain ⟨k, v⟩ := fv
  cases v with
  | plain i s => exact countKey_goRegister_le _ _ _ _ h
  | taggedW tm s => exact countKey_getOrRegister_le _ _ _ h
  | functional i fn => exact countKey_goRegister_le _ _ _ _ h

theorem countKey_registerFields_le (inst : List (String × FieldVal)) :
    ∀ (w : World) (n : String), countKey w.registry n ≤ 1 →
      countKey ((registerFields w inst).1).registry n ≤ 1 := by
  induction inst with
  | nil => intro w n h; exact h
  | cons fv rest ih =>
    intro w n h
    exact ih (registerField w fv).1 n (countKey_registerField_le w fv n h)

/-- Registering under one name leaves an absent other name absent. -/
theorem lookupStr_goRegister_other {α : Type} (r : Registry α) (kk : String) (v : α) (n : String)
    (h : lookupStr r n = none) (hk : kk ≠ n) : lookupStr (goRegister r kk v) n = none := by
  unfold goRegister
  cases h2 : lookupStr r kk with
  | some _ => exact h
  | none =>
    rw [lookupStr_append_none _ _ _ h]
    simp [lookupStr, hk]

theorem lookupStr_getOrRegister_other (w : World) (kk n : String)
    (h : lookupStr w.registry n = none) (hk : kk ≠ n) :
    lookupStr ((getOrRegister w kk).2).registry n = none := by
  unfold getOrRegister
  cases h2 : lookupStr w.registry kk with
  | some _ => exact h
  | none =>
    simp only []
    rw [lookupStr_append_none _ _ _ h]
    simp [lookupStr, hk]

/-- A failed `Except` computation carries some error. -/
theorem exceptOk_false {ε α : Type} (x : Except ε α) (h : exceptOk x = false) :
    ∃ e, x = Except.error e := by
  cases x with
  | ok v => simp [exceptOk] at h
  | error e => exact ⟨e, rfl⟩

/-- The success of `parseSample`, part-wise, coincides with the spec's
grammar. -/
theorem exceptOk_parseSampleParts (parts : List String) :
    exceptOk (parseSampleParts parts) = specGrammarParts parts := by
  cases parts with
  | nil => rfl
  | cons t rest =>
    by_cases h1 : t = "uniform"
    · subst h1
      cases rest with
      | nil => rfl
      | cons a rest2 =>
        cases rest2 with
        | nil =>
          simp only [parseSampleParts, specGrammarParts, if_pos rfl, parseUniformSample,
            specUniformParams]
          cases h : goAtoi a <;> simp [exceptOk, h]
        | cons b rest3 =>
          simp [parseSampleParts, specGrammarParts, parseUniformSample, specUniformParams,
            exceptOk]
    · by_cases h2 : t = "expdecay"
      · subst h2
        cases rest with
        | nil => rfl
        | cons a rest2 =>
          cases rest2 with
          | nil =>
            simp [parseSampleParts, specGrammarParts, parseExpDecaySample, specExpDecayParams,
              exceptOk, h1]
          | cons b rest3 =>
            cases rest3 with
            | nil =>
              simp only [parseSampleParts, specGrammarParts, if_neg h1, if_pos rfl,
                parseExpDecaySample, specExpDecayParams]
              cases h : goAtoi a with
              | none => simp [exceptOk, h]
              | some n => cases h3 : goParseFloat b <;> simp [exceptOk, h, h3]
            | cons c rest4 =>
              simp [parseSampleParts, specGrammarParts, parseExpDecaySample, specExpDecayParams,
                exceptOk, h1]
      · simp [parseSampleParts, specGrammarParts, exceptOk, h1, h2]

/-- A metric-tagged field of a non-metric type makes field discovery fail. -/
theorem getMetricFields_error_of_bad (f : AggField) :
    ∀ fs : List AggField, f ∈ fs → f.metricTag ≠ "" → isMetric f.ftype = false →
      exceptOk (getMetricFields fs) = false := by
  intro fs
  induction fs with
  | nil => intro h; simp at h
  | cons g rest ih =>
    intro hmem hm hbad
    rcases List.mem_cons.mp hmem with heq | htail
    · subst heq
      simp [getMetricFields, hm, hbad, exceptOk]
    · by_cases hg1 : g.metricTag = ""
      · have := ih htail hm hbad
        simpa [getMetricFields, hg1] using this
      · by_cases hg2 : isMetric g.ftype = true
        · obtain ⟨e, he⟩ := exceptOk_false _ (ih htail hm hbad)
          simp [getMetricFields, hg1, hg2, he, exceptOk]
        · simp [getMetricFields, hg1, hg2, exceptOk]

/-- A metric-tagged field survives into the discovered field list. -/
theorem getMetricFields_mem (f : AggField) :
    ∀ (fs l : List AggField), f ∈ fs → f.metricTag ≠ "" →
      getMetricFields fs = Except.ok l → f ∈ l := by
  intro fs
  induction fs with
  | nil => intro l h; simp at h
  | cons g rest ih =>
    intro l hmem hm hok
    by_cases hg1 : g.metricTag = ""
    · have hne : f ≠ g := fun h => hm (h ▸ hg1)
      have htail : f ∈ rest := by
        rcases List.mem_cons.mp hmem with heq | ht
        · exact absurd heq hne
        · exact ht
      simp only [getMetricFields, if_pos hg1] at hok
      exact ih l htail hm hok
    · by_cases hg2 : isMetric g.ftype = true
      · simp only [getMetricFields, if_neg hg1, if_pos hg2] at hok
        cases hrec : getMetricFields rest with
        | error e => rw [hrec] at hok; cases hok
        | ok l2 =>
          rw [hrec] at hok
          cases hok
          rcases List.mem_cons.mp hmem with heq | ht
          · subst heq; exact List.mem_cons_self _ _
          · exact List.mem_cons_of_mem _ (ih l2 ht hm hrec)
      · simp only [getMetricFields, if_neg hg1, if_neg hg2] at hok
        cases hok

/-- A bad compute accessor (in the claim's sense) makes `getGaugeFunction`
fail. -/
theorem getGaugeFunction_error_of_bad (want : NumType) (d : AggDecl) (fname : String)
    (h : gaugeAccessorBad d ("Compute" ++ fname) want = true) :
    exceptOk (getGaugeFunction want d fname) = false := by
  unfold gaugeAccessorBad at h
  unfold getGaugeFunction
  cases hm : lookupStr d.methods ("Compute" ++ fname) with
  | some sig =>
    rw [hm] at h
    simp only [badSig, Bool.or_eq_true, decide_eq_true_eq] at h
    simp only [hm]
    by_cases c1 : sig.numIn ≠ 0
    · simp [c1, exceptOk]
    · by_cases c2 : sig.outs.length ≠ 1
      · simp [c1, c2, exceptOk]
      · by_cases c3 : sig.outs.head? ≠ some want
        · simp [c1, c2, c3, exceptOk]
        · exact absurd h (by simp [c1, c2, c3])
  | none =>
    rw [hm] at h
    cases hf : lookupStr d.plainFields ("Compute" ++ fname) with
    | none => simp [hm, hf, exceptOk]
    | some info =>
      cases info with
      | nonFunc => simp [hm, hf, exceptOk]
      | funcVal sig =>
        rw [hf] at h
        simp only [badSig, Bool.or_eq_true, decide_eq_true_eq] at h
        simp only [hm, hf]
        by_cases c1 : sig.numIn ≠ 0
        · simp [c1, exceptOk]
        · by_cases c2 : sig.outs.length ≠ 1
          · simp [c1, c2, exceptOk]
          · by_cases c3 : sig.outs.head? ≠ some want
            · simp [c1, c2, c3, exceptOk]
            · exact absurd h (by simp [c1, c2, c3])

/-- If one discovered field always fails creation, the population loop
fails. -/
theorem createFields_error_of_mem (d : AggDecl) (f : AggField) :
    ∀ (l : List AggField) (nid : Nat), f ∈ l →
      (∀ n, exceptOk (createField d f n) = false) →
      exceptOk (createFields d l nid) = false := by
  intro l
  induction l with
  | nil => intro nid h; simp at h
  | cons g rest ih =>
    intro nid hmem hcf
    cases hg : createField d g nid with
    | error e => simp [createFields, hg, exceptOk]
    | ok p =>
      have hne : f ≠ g := by
        intro h
        subst h
        have := hcf nid
        rw [hg] at this
        simp [exceptOk] at this
      have htail : f ∈ rest := by
        rcases List.mem_cons.mp hmem with heq | ht
        · exact absurd heq hne
        · exact ht
      obtain ⟨e, he⟩ := exceptOk_false _ (ih p.2 htail hcf)
      obtain ⟨v, nid2⟩ := p
      simp [createFields, hg, he, exceptOk]

/-- Every entry surviving the unregistration fold came from the original
registry and has a name outside the folded name set. -/
theorem mem_foldl_unregister {α : Type} (fs : List AggField) :
    ∀ (r : Registry α) (p : String × α),
      p ∈ fs.foldl (fun acc f => goUnregister acc f.metricTag) r →
      p ∈ r ∧ ∀ f ∈ fs, p.1 ≠ f.metricTag := by
  induction fs with
  | nil => intro r p h; exact ⟨h, by simp⟩
  | cons g rest ih =>
    intro r p h
    simp only [List.foldl_cons] at h
    obtain ⟨h1, h2⟩ := ih (goUnregister r g.metricTag) p h
    have h3 : p ∈ r ∧ p.1 ≠ g.metricTag := by
      unfold goUnregister at h1
      have := List.mem_filter.mp h1
      exact ⟨this.1, by simpa using this.2⟩
    refine ⟨h3.1, ?_⟩
    intro f hf
    rcases List.mem_cons.mp hf with heq | ht
    · subst heq; exact h3.2
    · exact h2 f ht

/-- A name carried by no entry is absent from the registry. -/
theorem lookupStr_eq_none_of_not_mem {α : Type} (r : Registry α) (k : String)
    (h : ∀ p ∈ r, p.1 ≠ k) : lookupStr r k = none := by
  induction r with
  | nil => rfl
  | cons p r ih =>
    obtain ⟨a, b⟩ := p
    have ha : a ≠ k := h (a, b) (List.mem_cons_self _ _)
    simp only [lookupStr, if_neg ha]
    exact ih fun q hq => h q (List.mem_cons_of_mem _ hq)

/-- Unfolding one step of the registration loop. -/
theorem registerFields_cons (w : World) (fv : String × FieldVal)
    (rest : List (String × FieldVal)) :
    (registerFields w (fv :: rest)).1 = (registerFields (registerField w fv).1 rest).1 := rfl

/-- The first-registrant-wins walk: starting from a registry without the
name, registering an instance whose first field under that name is a plain
instance `i` ends with the name bound to `i`. -/
theorem registerFields_plain_first (inst : List (String × FieldVal)) :
    ∀ (w : World) (n : String) (i : Nat) (sm : Option Sample),
      instWFb inst = true → lookupStr w.registry n = none →
      instFind inst n = some (FieldVal.plain i sm) →
      lookupStr ((registerFields w inst).1).registry n = some i := by
  induction inst with
  | nil => intro w n i sm _ _ h1; simp [instFind, lookupStr] at h1
  | cons fv rest ih =>
    intro w n i sm hwf h0 h1
    obtain ⟨k, v⟩ := fv
    rw [registerFields_cons]
    by_cases hk : k = n
    · subst hk
      have hv : v = FieldVal.plain i sm := by
        simp [instFind, lookupStr] at h1
        exact h1
      subst hv
      have hreg : lookupStr ((registerField w (k, FieldVal.plain i sm)).1).registry k = some i := by
        simp only [registerField]
        unfold goRegister
        rw [h0]
        rw [lookupStr_append_none _ _ _ h0]
        simp [lookupStr]
      exact lookupStr_registerFields_some rest _ k i hreg
    · have h1' : instFind rest n = some (FieldVal.plain i sm) := by
        simpa [instFind, lookupStr, hk] using h1
      have hwfrest : instWFb rest = true := by
        simp only [instWFb, List.all_cons, Bool.and_eq_true] at hwf
        exact hwf.2
      have h0' : lookupStr ((registerField w (k, v)).1).registry n = none := by
        cases v with
        | plain j s => exact lookupStr_goRegister_other w.registry k j n h0 hk
        | functional j fn => exact lookupStr_goRegister_other w.registry k j n h0 hk
        | taggedW tm s =>
          have hname : tm.name = k := by
            simp only [instWFb, List.all_cons, Bool.and_eq_true] at hwf
            simpa using hwf.1
          exact lookupStr_getOrRegister_other w tm.name n h0 (by rw [hname]; exact hk)
      exact ih (registerField w (k, v)).1 n i sm hwfrest h0' h1'

/-- C1: for every base metric name and every two tag lists that normalize to
the same cleaned, sorted tag list (trimming whitespace, dropping empty
strings, order-independent — duplicate entries are kept), calling `Tag` on
a registry-bound tagged metric synthesizes the identical registry key and
returns the identical underlying metric instance, both for calls on the
same registry state and across successive calls. -/
theorem tag_same_cleaned_tags_same_instance (m : TaggedMetric) (ts1 ts2 : List String)
    (w : World) (hb : m.bound = true) (hp : (cleanTags ts1).Perm (cleanTags ts2)) :
    taggedName m.name ts1 = taggedName m.name ts2 ∧
    (TaggedMetric.Tag m ts1 w).1 = (TaggedMetric.Tag m ts2 w).1 ∧
    (TaggedMetric.Tag m ts2 (TaggedMetric.Tag m ts1 w).2).1 = (TaggedMetric.Tag m ts1 w).1 := by
  have hk : taggedName m.name ts1 = taggedName m.name ts2 := by
    unfold taggedName
    rw [cleanAndSortTags_perm hp]
  refine ⟨hk, ?_, ?_⟩
  · simp [TaggedMetric.Tag, hb, hk]
  · simp only [TaggedMetric.Tag, hb]
    simp only [Bool.true_eq_false, if_false, hk]
    rw [getOrRegister_stable]

/-- C1 witness: the spec's own example lists `["b:2","a:1"]` and
`["a:1","b:2"," "]` have the same cleaned tags up to order, and a bound
metric returns the same instance for both. -/
theorem tag_same_cleaned_tags_same_instance_witness :
    (cleanTags ["b:2", "a:1"]).Perm (cleanTags ["a:1", "b:2", " "]) ∧
    (TaggedMetric.Tag ⟨true, "responses"⟩ ["b:2", "a:1"] ⟨[], 0⟩).1 =
      (TaggedMetric.Tag ⟨true, "responses"⟩ ["a:1", "b:2", " "] ⟨[], 0⟩).1 :=
  ⟨by decide,
   (tag_same_cleaned_tags_same_instance ⟨true, "responses"⟩ ["b:2", "a:1"]
     ["a:1", "b:2", " "] ⟨[], 0⟩ rfl (by decide)).2.1⟩

/-- C1 counterexample: the tag lists `["a"]` and `["a","a"]` normalize to the
same cleaned, sorted, deduplicated set, yet the synthesized keys differ
(`cleanAndSortTags` never deduplicates) and a bound tagged metric hands out
two distinct instances. -/
theorem tag_dedup_distinct_instances :
    (cleanAndSortTags ["a"]).dedup = (cleanAndSortTags ["a", "a"]).dedup ∧
    taggedName "responses" ["a"] ≠ taggedName "responses" ["a", "a"] ∧
    (TaggedMetric.Tag ⟨true, "responses"⟩ ["a", "a"]
        (TaggedMetric.Tag ⟨true, "responses"⟩ ["a"] ⟨[], 0⟩).2).1 ≠
      (TaggedMetric.Tag ⟨true, "responses"⟩ ["a"] ⟨[], 0⟩).1 := by
  refine ⟨by decide, by decide, by decide⟩

/-- C2: evaluating the embedded `tagsFromName` at the claim's inputs.  On
`"multiple[tag2:value,tag1]"` the function returns the tags in raw split
order `["tag2:value","tag1"]`, not in the sorted order the claim (and the
repository's own `TestTagsFromName`) states; the malformed name
`"invalid[tag1"` does fall back to the whole string with no tags. -/
theorem tagsFromName_eval :
    tagsFromName "multiple[tag2:value,tag1]" = ("multiple", ["tag2:value", "tag1"]) ∧
    tagsFromName "multiple[tag2:value,tag1]" ≠ ("multiple", ["tag1", "tag2:value"]) ∧
    tagsFromName "invalid[tag1" = ("invalid[tag1", []) := by
  refine ⟨by decide, by decide, by decide⟩

/-- C3: registering a struct registers each field under its declared name but
skips names already present: if the registry does not yet know the name and
the first struct's field under that name holds the plain instance `i`, then
after binding the first struct and then any second struct, the name resolves
to `i`, the second registration left the entry unchanged, and the registry
holds exactly one entry under the name. -/
theorem register_skips_existing_names (w : World) (inst1 inst2 : List (String × FieldVal))
    (n : String) (i : Nat) (sm : Option Sample)
    (h0 : lookupStr w.registry n = none)
    (hwf : instWFb inst1 = true)
    (h1 : instFind inst1 n = some (FieldVal.plain i sm)) :
    lookupStr ((registerFields (registerFields w inst1).1 inst2).1).registry n = some i ∧
    lookupStr ((registerFields (registerFields w inst1).1 inst2).1).registry n =
      lookupStr ((registerFields w inst1).1).registry n ∧
    countKey ((registerFields (registerFields w inst1).1 inst2).1).registry n = 1 := by
  have hfirst := registerFields_plain_first inst1 w n i sm hwf h0 h1
  have hsecond := lookupStr_registerFields_some inst2 _ n i hfirst
  have hc0 : countKey w.registry n = 0 := lookupStr_none_countKey _ _ h0
  have hle := countKey_registerFields_le inst2 (registerFields w inst1).1 n
    (countKey_registerFields_le inst1 w n (by omega))
  have hge := lookupStr_some_countKey _ n i hsecond
  exact ⟨hsecond, hsecond.trans hfirst.symm, le_antisymm hle hge⟩

/-- C3 witness: two one-field structs declaring `"foo.count"`; after binding
both, the name resolves to the first struct's instance. -/
theorem register_skips_existing_names_witness :
    instWFb [("foo.count", FieldVal.plain 0 none)] = true ∧
    lookupStr ((registerFields (registerFields ⟨[], 0⟩
        [("foo.count", FieldVal.plain 0 none)]).1
        [("foo.count", FieldVal.plain 7 none)]).1).registry "foo.count" = some 0 :=
  ⟨by decide,
   (register_skips_existing_names ⟨[], 0⟩ [("foo.count", FieldVal.plain 0 none)]
     [("foo.count", FieldVal.plain 7 none)] "foo.count" 0 none rfl (by decide) (by decide)).1⟩

/-- C6: for a counter entry of the registry, one `EmitOnce` pass produces
exactly one count message whose value is the counter's current cumulative
total, that message is among the messages of the pass, and the emitter
computes no delta: a counter incremented by 5 emits 5, and after further
increments of 1 and 2 it reports the cumulative count 8. -/
theorem counter_emits_cumulative_total (r : Registry EmMetric) (rawName : String) (c : Int)
    (h : (rawName, EmMetric.counter c) ∈ r) :
    emitEntry rawName (EmMetric.counter c) =
      [Msg.count (tagsFromName rawName).1 (counterCount c) (tagsFromName rawName).2] ∧
    Msg.count (tagsFromName rawName).1 (counterCount c) (tagsFromName rawName).2 ∈ EmitOnce r ∧
    counterCount (counterInc 0 5) = 5 ∧
    emitEntry rawName (EmMetric.counter (counterInc 0 5)) =
      [Msg.count (tagsFromName rawName).1 5 (tagsFromName rawName).2] ∧
    counterCount (counterInc (counterInc (counterInc 0 5) 1) 2) = 8 := by
  refine ⟨rfl, ?_, by decide, rfl, by decide⟩
  exact List.mem_flatMap.mpr ⟨(rawName, EmMetric.counter c), h, List.mem_singleton.mpr rfl⟩

/-- C6 witness: a registry holding one counter at total 5 emits the single
message `count "requests" 5`. -/
theorem counter_emits_cumulative_total_witness :
    ("requests", EmMetric.counter 5) ∈ ([("requests", EmMetric.counter 5)] : Registry EmMetric) ∧
    Msg.count "requests" 5 [] ∈ EmitOnce [("requests", EmMetric.counter 5)] := by
  refine ⟨List.mem_singleton.mpr rfl, ?_⟩
  have h := (counter_emits_cumulative_total [("requests", EmMetric.counter 5)] "requests" 5
    (List.mem_singleton.mpr rfl)).2.1
  exact h

/-- C7: registering a struct containing a dynamic-tag (`Tagged`) field
immediately registers the bare, untagged base name, so the base name is
present in the registry as soon as `Register` returns, before any `Tag`
call. -/
theorem tagged_field_registers_bare_name (inst : List (String × FieldVal)) :
    ∀ (w : World) (k : String) (tm : TaggedMetric) (s : Option Sample),
      (k, FieldVal.taggedW tm s) ∈ inst →
      (lookupStr ((registerFields w inst).1).registry tm.name).isSome = true := by
  induction inst with
  | nil => intro w k tm s h; simp at h
  | cons fv rest ih =>
    intro w k tm s h
    rw [registerFields_cons]
    rcases List.mem_cons.mp h with heq | hmem
    · subst heq
      obtain ⟨v, hv⟩ := getOrRegister_present w tm.name
      have hv' : lookupStr ((registerField w (k, FieldVal.taggedW tm s)).1).registry tm.name =
          some v := hv
      rw [lookupStr_registerFields_some rest _ tm.name v hv']
      rfl
    · exact ih (registerField w fv).1 k tm s hmem

/-- C7 witness: binding a struct with one `Tagged` counter field registers
its base name at once. -/
theorem tagged_field_registers_bare_name_witness :
    ("responses", FieldVal.taggedW ⟨false, "responses"⟩ none) ∈
      [("responses", FieldVal.taggedW ⟨false, "responses"⟩ none)] ∧
    (lookupStr ((registerFields ⟨[], 0⟩
        [("responses", FieldVal.taggedW ⟨false, "responses"⟩ none)]).1).registry
      "responses").isSome = true :=
  ⟨List.mem_singleton.mpr rfl,
   tagged_field_registers_bare_name _ ⟨[], 0⟩ "responses" ⟨false, "responses"⟩ none
     (List.mem_singleton.mpr rfl)⟩

/-- C9: a tagged wrapper not yet bound to a registry serves every `Tag` call
with a fresh, unregistered factory instance: the registry is untouched, the
returned instance is none of the registered ones, and two calls with
identical tags return distinct instances (observations recorded before
binding are lost). -/
theorem unbound_tag_returns_fresh_instance (tm : TaggedMetric) (ts1 ts2 : List String)
    (w : World) (hb : tm.bound = false)
    (hids : ∀ p ∈ w.registry, p.2 < w.nextId) :
    ((TaggedMetric.Tag tm ts1 w).2).registry = w.registry ∧
    (∀ p ∈ w.registry, p.2 ≠ (TaggedMetric.Tag tm ts1 w).1) ∧
    (TaggedMetric.Tag tm ts1 w).1 ≠ (TaggedMetric.Tag tm ts2 (TaggedMetric.Tag tm ts1 w).2).1 := by
  have hT1 : TaggedMetric.Tag tm ts1 w = (w.nextId, ⟨w.registry, w.nextId + 1⟩) := by
    simp [TaggedMetric.Tag, hb]
  have hT2 : TaggedMetric.Tag tm ts2 ⟨w.registry, w.nextId + 1⟩ =
      (w.nextId + 1, ⟨w.registry, w.nextId + 2⟩) := by
    simp [TaggedMetric.Tag, hb]
  rw [hT1]
  rw [hT2]
  exact ⟨rfl, fun p hp => Nat.ne_of_lt (hids p hp), by omega⟩

/-- C9 witness: an unbound wrapper over a one-entry registry leaves the
registry alone and returns fresh distinct instances. -/
theorem unbound_tag_returns_fresh_instance_witness :
    (∀ p ∈ ([("x", 0)] : Registry Nat), p.2 < 1) ∧
    ((TaggedMetric.Tag ⟨false, "responses"⟩ ["a"] ⟨[("x", 0)], 1⟩).2).registry = [("x", 0)] ∧
    (TaggedMetric.Tag ⟨false, "responses"⟩ ["a"] ⟨[("x", 0)], 1⟩).1 ≠
      (TaggedMetric.Tag ⟨false, "responses"⟩ ["a"]
        (TaggedMetric.Tag ⟨false, "responses"⟩ ["a"] ⟨[("x", 0)], 1⟩).2).1 := by
  have h := unbound_tag_returns_fresh_instance ⟨false, "responses"⟩ ["a"] ["a"]
    ⟨[("x", 0)], 1⟩ rfl (by decide)
  exact ⟨by decide, h.1, h.2.2⟩

/-- C4: a sample specification parses successfully exactly when it matches
the case-insensitive comma-separated grammar `uniform` | `uniform,<int>` |
`expdecay` | `expdecay,<int>,<float>` (so it fails on an unrecognized first
token, a malformed reservoir size or alpha, `uniform` with more than one
parameter, and `expdecay` with exactly one parameter); and when the
specification is absent, a histogram or timer field defaults to an
exponentially-decaying sample with reservoir size 1028 and alpha 0.015. -/
theorem parseSample_matches_grammar (s : String) (d : AggDecl) (f g : AggField) (nid : Nat)
    (hf : f.ftype = ⟨false, BaseKind.histogram⟩) (hfs : f.sampleTag = "")
    (hg : g.ftype = ⟨false, BaseKind.timer⟩) (hgs : g.sampleTag = "") :
    exceptOk (parseSample s) = specSampleGrammarB s ∧
    DefaultReservoirSize = 1028 ∧ DefaultExpDecayAlpha = 0.015 ∧
    createField d f nid =
      Except.ok (FieldVal.plain nid (some (Sample.expDecay 1028 0.015)), nid + 1) ∧
    createField d g nid =
      Except.ok (FieldVal.plain nid (some (Sample.expDecay 1028 0.015)), nid + 1) := by
  refine ⟨?_, rfl, rfl, ?_, ?_⟩
  · unfold parseSample specSampleGrammarB
    exact exceptOk_parseSampleParts _
  · have hb : f.ftype.base = BaseKind.histogram := by rw [hf]
    have ht : f.ftype.tagged = false := by rw [hf]
    simp [createField, hb, ht, hfs, sampleForTag, mkMetricVal, DefaultReservoirSize,
      DefaultExpDecayAlpha]
  · have hb : g.ftype.base = BaseKind.timer := by rw [hg]
    have ht : g.ftype.tagged = false := by rw [hg]
    simp [createField, hb, ht, hgs, sampleForTag, mkMetricVal, DefaultReservoirSize,
      DefaultExpDecayAlpha]

/-- C4 witness: a concrete upper-case specification agrees with the grammar,
and concrete histogram and timer fields without a sample tag receive the
default exponentially-decaying sample. -/
theorem parseSample_matches_grammar_witness :
    exceptOk (parseSample "EXPDECAY,20,0.1") = specSampleGrammarB "EXPDECAY,20,0.1" ∧
    DefaultReservoirSize = 1028 ∧ DefaultExpDecayAlpha = 0.015 ∧
    createField ⟨[], [], []⟩ ⟨"DownloadSize", "download.size", "",
        ⟨false, BaseKind.histogram⟩⟩ 0 =
      Except.ok (FieldVal.plain 0 (some (Sample.expDecay 1028 0.015)), 1) ∧
    createField ⟨[], [], []⟩ ⟨"DownloadLatency", "download.latency", "",
        ⟨false, BaseKind.timer⟩⟩ 0 =
      Except.ok (FieldVal.plain 0 (some (Sample.expDecay 1028 0.015)), 1) :=
  parseSample_matches_grammar "EXPDECAY,20,0.1" ⟨[], [], []⟩
    ⟨"DownloadSize", "download.size", "", ⟨false, BaseKind.histogram⟩⟩
    ⟨"DownloadLatency", "download.latency", "", ⟨false, BaseKind.timer⟩⟩ 0 rfl rfl rfl rfl

/-- C5: construction of a struct with a functional-gauge field fails — and
returns no partially populated instance — when the compute accessor is
missing or a non-function field, when its signature is wrong (parameters,
not exactly one result, or a result that is not int64 for FunctionalGauge
respectively float64 for FunctionalGaugeFloat64), and when the functional
gauge is wrapped in the dynamic-tag `Tagged` interface. -/
theorem functional_gauge_construction_fails (d : AggDecl) (f : AggField) (want : NumType)
    (hf : f ∈ d.fields) (hm : f.metricTag ≠ "")
    (hkind : (f.ftype.base = BaseKind.functionalGauge ∧ want = NumType.int64) ∨
      (f.ftype.base = BaseKind.functionalGaugeFloat64 ∧ want = NumType.float64))
    (hbad : f.ftype.tagged = true ∨ gaugeAccessorBad d ("Compute" ++ f.name) want = true) :
    exceptOk (New d) = false ∧ ∀ inst, New d ≠ Except.ok inst := by
  have main : exceptOk (New d) = false := by
    by_cases htag : f.ftype.tagged = true
    · have hnm : isMetric f.ftype = false := by
        rcases hkind with ⟨hb, _⟩ | ⟨hb, _⟩ <;> simp [isMetric, hb, htag]
      obtain ⟨e, he⟩ := exceptOk_false _ (getMetricFields_error_of_bad f d.fields hf hm hnm)
      simp [New, he, exceptOk]
    · have hb2 : gaugeAccessorBad d ("Compute" ++ f.name) want = true := by
        rcases hbad with h | h
        · exact absurd h htag
        · exact h
      have hcf : ∀ nid, exceptOk (createField d f nid) = false := by
        intro nid
        obtain ⟨e, he⟩ := exceptOk_false _ (getGaugeFunction_error_of_bad want d f.name hb2)
        rcases hkind with ⟨hbase, hw⟩ | ⟨hbase, hw⟩ <;> subst hw <;>
          simp [createField, hbase, he, exceptOk]
      cases hgm : getMetricFields d.fields with
      | error e => simp [New, hgm, exceptOk]
      | ok fs =>
        have hmem : f ∈ fs := getMetricFields_mem f d.fields fs hf hm hgm
        obtain ⟨e, he⟩ := exceptOk_false _ (createFields_error_of_mem d f fs 0 hmem hcf)
        simp [New, hgm, he, exceptOk]
  refine ⟨main, ?_⟩
  intro inst hok
  rw [hok] at main
  simp [exceptOk] at main

/-- C5 witness: a struct declaring a FunctionalGauge field with no
`ComputeQueueLength` accessor anywhere fails construction. -/
theorem functional_gauge_construction_fails_witness :
    (⟨"QueueLength", "queue_length", "", ⟨false, BaseKind.functionalGauge⟩⟩ : AggField) ∈
      [(⟨"QueueLength", "queue_length", "", ⟨false, BaseKind.functionalGauge⟩⟩ : AggField)] ∧
    exceptOk (New ⟨[⟨"QueueLength", "queue_length", "",
      ⟨false, BaseKind.functionalGauge⟩⟩], [], []⟩) = false :=
  ⟨List.mem_singleton.mpr rfl,
   (functional_gauge_construction_fails
     ⟨[⟨"QueueLength", "queue_length", "", ⟨false, BaseKind.functionalGauge⟩⟩], [], []⟩
     ⟨"QueueLength", "queue_length", "", ⟨false, BaseKind.functionalGauge⟩⟩ NumType.int64
     (List.mem_singleton.mpr rfl) (by decide) (Or.inl ⟨rfl, rfl⟩) (Or.inr (by decide))).1⟩

/-- C8: unregistering a struct removes every one of its declared metric names
from the registry unconditionally: afterwards none of the declared names
resolves, and no registry entry visited by a subsequent iteration (as a
scrape or emit pass performs) carries any of those names. -/
theorem unregister_removes_declared_names (d : AggDecl) (r : Registry Nat)
    (fs : List AggField) (h : getMetricFields d.fields = Except.ok fs) :
    ∃ r', UnregisterAgg d r = Except.ok r' ∧
      (∀ f ∈ fs, lookupStr r' f.metricTag = none) ∧
      ∀ p ∈ r', ∀ f ∈ fs, p.1 ≠ f.metricTag := by
  refine ⟨fs.foldl (fun acc f => goUnregister acc f.metricTag) r, ?_, ?_, ?_⟩
  · simp [UnregisterAgg, h]
  · intro f hf
    apply lookupStr_eq_none_of_not_mem
    intro p hp
    exact (mem_foldl_unregister fs r p hp).2 f hf
  · intro p hp f hf
    exact (mem_foldl_unregister fs r p hp).2 f hf

/-- C8 witness: unregistering a two-metric struct from a registry that also
holds an unrelated name removes exactly the declared names. -/
theorem unregister_removes_declared_names_witness :
    ∃ r', UnregisterAgg ⟨[⟨"A", "foo", "", ⟨false, BaseKind.counter⟩⟩,
        ⟨"B", "bar", "", ⟨false, BaseKind.gauge⟩⟩], [], []⟩
        [("foo", 0), ("baz", 1), ("bar", 2)] = Except.ok r' ∧
      (∀ f ∈ [(⟨"A", "foo", "", ⟨false, BaseKind.counter⟩⟩ : AggField),
        ⟨"B", "bar", "", ⟨false, BaseKind.gauge⟩⟩], lookupStr r' f.metricTag = none) ∧
      ∀ p ∈ r', ∀ f ∈ [(⟨"A", "foo", "", ⟨false, BaseKind.counter⟩⟩ : AggField),
        ⟨"B", "bar", "", ⟨false, BaseKind.gauge⟩⟩], p.1 ≠ f.metricTag :=
  unregister_removes_declared_names
    ⟨[⟨"A", "foo", "", ⟨false, BaseKind.counter⟩⟩,
      ⟨"B", "bar", "", ⟨false, BaseKind.gauge⟩⟩], [], []⟩
    [("foo", 0), ("baz", 1), ("bar", 2)]
    [⟨"A", "foo", "", ⟨false, BaseKind.counter⟩⟩,
     ⟨"B", "bar", "", ⟨false, BaseKind.gauge⟩⟩] rfl

/-- C10: when the compute accessor is a function-valued struct field rather
than a method, construction binds the gauge to the field location, not to
the field's value: only the field's type is validated (the nil the field
holds while `New` runs is never inspected, so construction succeeds), the
result is the call-time wrapper, and evaluating the gauge applies whatever
function the field holds at the time of the call, so a function assigned
after `New` is honored. -/
theorem functional_gauge_binds_field_location (d : AggDecl) (fname : String) (want : NumType)
    (sig : FuncSig)
    (hm : lookupStr d.methods ("Compute" ++ fname) = none)
    (hf : lookupStr d.plainFields ("Compute" ++ fname) = some (FieldFuncInfo.funcVal sig))
    (hin : sig.numIn = 0) (hout : sig.outs = [want]) :
    getGaugeFunction want d fname = Except.ok (GaugeFn.fieldWrapper ("Compute" ++ fname)) ∧
    ∀ me fe : String → Int,
      evalGauge (GaugeFn.fieldWrapper ("Compute" ++ fname)) me fe = fe ("Compute" ++ fname) := by
  refine ⟨?_, fun me fe => rfl⟩
  simp [getGaugeFunction, hm, hf, hin, hout]

/-- C10 witness: a function-typed `ComputeQueueLength` field (with no such
method) yields the field wrapper, and evaluating it under a later field
assignment returns that assignment's value. -/
theorem functional_gauge_binds_field_location_witness :
    getGaugeFunction NumType.int64
      ⟨[], [], [("ComputeQueueLength", FieldFuncInfo.funcVal ⟨0, [NumType.int64]⟩)]⟩
      "QueueLength" = Except.ok (GaugeFn.fieldWrapper "ComputeQueueLength") ∧
    evalGauge (GaugeFn.fieldWrapper "ComputeQueueLength") (fun _ => 0) (fun _ => 42) = 42 := by
  have h := functional_gauge_binds_field_location
    ⟨[], [], [("ComputeQueueLength", FieldFuncInfo.funcVal ⟨0, [NumType.int64]⟩)]⟩
    "QueueLength" NumType.int64 ⟨0, [NumType.int64]⟩ rfl rfl rfl rfl
  exact ⟨h.1, h.2 (fun _ => 0) (fun _ => 42)⟩
